import Mathlib

/-!
Shallow embedding of the Progress & Gamification Engine of the
DNATE_MSL_Trainer repository (src/features/gamification.py and the
progress endpoints of src/backend/app/main.py), together with theorems
settling the frozen claims about it.

Modelling conventions:
* Python floats are modelled as `Rat` (all arithmetic in scope is exact
  small-fraction arithmetic: sums, averages, percentages).
* A calendar date is a day ordinal `Int`; a date *string* is an
  `Option Int`: `some d` for a string `datetime.fromisoformat` parses to
  day `d`, `none` for an unparseable string.
* Python dicts with insertion order (category_stats, persona_stats,
  the milestone catalog, the heatmap accumulator) are association lists.
* `milestones_achieved` is in Python a heterogeneous list holding id
  strings and (because of the `extend` in `update_progress`) full award
  dicts; it is modelled by `List MilestoneItem`.
-/

namespace DNATE

/-! ## gamification.py: XP thresholds, level and XP progress -/

def XP_THRESHOLDS : List Int := [0, 100, 300, 600, 1000]

/-- Loop body of `calculate_level`: walk `XP_THRESHOLDS[1:]` with an
enumeration counter starting at 1, returning the counter at the first
threshold strictly above `xp`; fall through to `len(XP_THRESHOLDS)`. -/
def levelLoop (xp : Int) : List Int → Nat → Nat
  | [], _ => XP_THRESHOLDS.length
  | t :: ts, lvl => if xp < t then lvl else levelLoop xp ts (lvl + 1)

def calculate_level (xp : Int) : Nat :=
  levelLoop xp (XP_THRESHOLDS.drop 1) 1

/-- Loop body of `xp_for_next_level`: first threshold in
`XP_THRESHOLDS[1:]` strictly above `current_xp`, else the last ladder entry. -/
def xpNextLoop (xp : Int) : List Int → Int
  | [] => XP_THRESHOLDS.getLastD 0
  | t :: ts => if xp < t then t else xpNextLoop xp ts

def xp_for_next_level (current_xp : Int) : Int :=
  xpNextLoop current_xp (XP_THRESHOLDS.drop 1)

structure XpProgress where
  current_level : Nat
  current_xp : Int
  next_level : Nat
  next_level_xp : Int
  xp_remaining : Int
  progress_percent : Rat
  is_max_level : Bool
deriving DecidableEq

def xp_progress_to_next_level (current_xp : Int) : XpProgress :=
  let current_level := calculate_level current_xp
  let next_level_xp := xp_for_next_level current_xp
  let current_level_xp :=
    if current_level > 0 then XP_THRESHOLDS.getD (current_level - 1) 0 else 0
  let xp_in_level : Int := current_xp - current_level_xp
  let xp_needed_for_level : Int := next_level_xp - current_level_xp
  let progress_percent : Rat :=
    if xp_needed_for_level > 0 then
      (xp_in_level : Rat) / (xp_needed_for_level : Rat) * 100
    else 100
  { current_level := current_level
    current_xp := current_xp
    next_level :=
      if current_level < XP_THRESHOLDS.length then current_level + 1 else current_level
    next_level_xp := next_level_xp
    xp_remaining := next_level_xp - current_xp
    progress_percent := progress_percent
    is_max_level := decide (current_xp ≥ XP_THRESHOLDS.getLastD 0) }

/-! ## gamification.py: goal progress -/

structure GoalProgress where
  current : Int
  target : Int
  progress_percent : Rat
  remaining : Int
  achieved : Bool
deriving DecidableEq

def calculate_goal_progress (current target : Int) : GoalProgress :=
  let progress_percent : Rat :=
    min (if target > 0 then (current : Rat) / (target : Rat) * 100 else 0) 100
  { current := current
    target := target
    progress_percent := progress_percent
    remaining := max (target - current) 0
    achieved := decide (current ≥ target) }

/-! ## gamification.py: streaks -/

/-- The list comprehension `[datetime.fromisoformat(d).date() for d in ...]`
inside `try`: the first unparseable entry aborts the whole computation. -/
def parseAll : List (Option Int) → Option (List Int)
  | [] => some []
  | none :: _ => none
  | some d :: rest => (parseAll rest).map (d :: ·)

/-- Distinct elements of a list in order of first occurrence
(models building a Python set / dict keys from a list). -/
def keysInOrder (l : List Int) : List Int :=
  l.foldl (fun acc d => if acc.contains d then acc else acc ++ [d]) []

/-- `sorted(list(set(l)))`. -/
def dedupSort (l : List Int) : List Int :=
  List.insertionSort (· ≤ ·) (keysInOrder l)

/-- The `for i in range(1, len(dates))` loop of `calculate_streak`:
`prev` is `dates[i-1]`, `temp` and `longest` the running counters. -/
def streakFold (prev : Int) (ds : List Int) (temp longest : Nat) : Nat × Nat :=
  match ds with
  | [] => (temp, longest)
  | d :: rest =>
    if d - prev = 1 then streakFold d rest (temp + 1) (max longest (temp + 1))
    else streakFold d rest 1 longest

def calculate_streak (practice_dates : List (Option Int)) (today : Int) :
    Nat × Nat :=
  if practice_dates = [] then (0, 0)
  else
    match parseAll practice_dates with
    | none => (0, 0)
    | some ds =>
      match dedupSort ds with
      | [] => (0, 0)
      | d0 :: rest =>
        let r := streakFold d0 rest 1 1
        let last := rest.getLastD d0
        let days_since := today - last
        let current := if days_since = 0 then r.1 else if days_since = 1 then r.1 else 0
        (current, r.2)

/-! ## Data model: the per-user progress record -/

structure CatStats where
  count : Nat
  avg_score : Rat
  total_score : Rat
deriving DecidableEq

/-- The dict returned by `check_and_award_milestones` for one award. -/
structure AwardInfo where
  id : String
  name : String
  description : String
  xp : Int
  icon : String
deriving DecidableEq

/-- An element of the Python `milestones_achieved` list: either a milestone
id string (appended by `check_and_award_milestones`) or a full award dict
(appended by the `extend` in `update_progress`). -/
inductive MilestoneItem where
  | ident (s : String)
  | award (a : AwardInfo)
deriving DecidableEq

structure ProgressRecord where
  total_sessions : Nat
  category_stats : List (String × CatStats)
  persona_stats : List (String × CatStats)
  average_score : Rat
  scores_history : List Rat
  score_timestamps : List Int
  total_practice_time_minutes : Rat
  current_streak_days : Nat
  longest_streak_days : Nat
  last_practice_date : Option Int
  practice_dates : List Int
  milestones_achieved : List MilestoneItem
  level : Nat
  experience_points : Int
  daily_goal : Nat
  weekly_goal : Nat
deriving DecidableEq

/-- The `user_progress` template document of main.py: all counters zero,
empty sequences, level 1, goals 3 and 15 (the record a signup creates). -/
def initial_record : ProgressRecord :=
  { total_sessions := 0
    category_stats := []
    persona_stats := []
    average_score := 0
    scores_history := []
    score_timestamps := []
    total_practice_time_minutes := 0
    current_streak_days := 0
    longest_streak_days := 0
    last_practice_date := none
    practice_dates := []
    milestones_achieved := []
    level := 1
    experience_points := 0
    daily_goal := 3
    weekly_goal := 15 }

/-! ## gamification.py: milestone catalog and awarding -/

structure MilestoneDef where
  name : String
  description : String
  xp : Int
  icon : String
  check : ProgressRecord → Bool

/-- The `MILESTONES` dict, in its insertion order. -/
def MILESTONES : List (String × MilestoneDef) :=
  [ ("first_session",
      { name := "First Steps"
        description := "Complete your first practice session"
        xp := 50, icon := "T"
        check := fun stats => decide (stats.total_sessions ≥ 1) }),
    ("10_sessions",
      { name := "Consistent Learner"
        description := "Complete 10 practice sessions"
        xp := 100, icon := "B"
        check := fun stats => decide (stats.total_sessions ≥ 10) }),
    ("50_sessions",
      { name := "Dedicated MSL"
        description := "Complete 50 practice sessions"
        xp := 500, icon := "W"
        check := fun stats => decide (stats.total_sessions ≥ 50) }),
    ("perfect_score",
      { name := "Perfect Response"
        description := "Score 95+ on any question"
        xp := 200, icon := "H"
        check := fun stats => stats.scores_history.any (fun s => decide (s ≥ 95)) }),
    ("7_day_streak",
      { name := "Week Warrior"
        description := "Practice for 7 consecutive days"
        xp := 300, icon := "F"
        check := fun stats => decide (stats.current_streak_days ≥ 7) }),
    ("all_categories",
      { name := "Well Rounded"
        description := "Practice all 7 categories"
        xp := 250, icon := "S"
        check := fun stats => decide (stats.category_stats.length ≥ 7) }),
    ("all_personas",
      { name := "People Person"
        description := "Practice with all 3 personas"
        xp := 150, icon := "P"
        check := fun stats => decide (stats.persona_stats.length ≥ 3) }),
    ("high_achiever",
      { name := "High Achiever"
        description := "Maintain 80+ average score"
        xp := 400, icon := "A"
        check := fun stats =>
          decide (stats.average_score ≥ 80) && decide (stats.total_sessions ≥ 5) }) ]

/-- Python `milestone_id in achieved_milestones`: a string compares equal
only to an id entry, never to an award dict. -/
def containsId : List MilestoneItem → String → Bool
  | [], _ => false
  | .ident s :: rest, mid => decide (s = mid) || containsId rest mid
  | .award _ :: rest, mid => containsId rest mid

/-- One iteration of the `for milestone_id, milestone in MILESTONES.items()`
loop of `check_and_award_milestones`, threading the mutated stats dict and
the `newly_achieved` accumulator. -/
def awardStep (acc : ProgressRecord × List AwardInfo) (m : String × MilestoneDef) :
    ProgressRecord × List AwardInfo :=
  if containsId acc.1.milestones_achieved m.1 then acc
  else if m.2.check acc.1 then
    ({ acc.1 with
        milestones_achieved := acc.1.milestones_achieved ++ [MilestoneItem.ident m.1]
        experience_points := acc.1.experience_points + m.2.xp },
     acc.2 ++ [{ id := m.1, name := m.2.name, description := m.2.description,
                 xp := m.2.xp, icon := m.2.icon }])
  else acc

def check_and_award_milestones (stats : ProgressRecord) :
    ProgressRecord × List AwardInfo :=
  let r := MILESTONES.foldl awardStep (stats, [])
  ({ r.1 with level := calculate_level r.1.experience_points }, r.2)

/-! ## main.py: the progress update orchestrator and the heatmap endpoint -/

/-- Update one entry of `category_stats` / `persona_stats`: create a zeroed
entry on first occurrence, then bump count, total and average. -/
def updStats (m : List (String × CatStats)) (key : String) (score : Rat) :
    List (String × CatStats) :=
  let m := if m.any (fun p => p.1 = key) then m
           else m ++ [(key, { count := 0, avg_score := 0, total_score := 0 })]
  m.map fun p =>
    if p.1 = key then
      let c := p.2.count + 1
      let t := p.2.total_score + score
      (p.1, { count := c, avg_score := t / (c : Rat), total_score := t })
    else p

/-- Steps 1-5 of `update_progress` of main.py (counters, per-key stats,
history, average, practice dates, practice time, streaks): everything up
to but not including milestone awarding.  `today` is
`datetime.utcnow().date()` as a day ordinal and `now_ts` the corresponding
timestamp value appended to `score_timestamps`. -/
def updateCore (rec : ProgressRecord) (category persona_id : String)
    (score : Rat) (response_time_seconds : Int) (today : Int) (now_ts : Int) :
    ProgressRecord :=
  let r1 := { rec with total_sessions := rec.total_sessions + 1 }
  let r2 := { r1 with category_stats := updStats r1.category_stats category score }
  let r3 := { r2 with persona_stats := updStats r2.persona_stats persona_id score }
  let hist := r3.scores_history ++ [score]
  let r4 := { r3 with
    scores_history := hist
    score_timestamps := r3.score_timestamps ++ [now_ts]
    average_score := (hist.foldl (· + ·) 0) / (hist.length : Rat) }
  let pd := if r4.practice_dates.contains today then r4.practice_dates
            else r4.practice_dates ++ [today]
  let r5 := { r4 with
    practice_dates := pd
    total_practice_time_minutes :=
      r4.total_practice_time_minutes + (response_time_seconds : Rat) / 60 }
  let streaks := calculate_streak (r5.practice_dates.map some) today
  { r5 with
    current_streak_days := streaks.1
    longest_streak_days := max streaks.2 r5.longest_streak_days
    last_practice_date := some now_ts }

/-- Milestone awarding followed by the `extend` of the award dicts onto
`milestones_achieved` (the tail of `update_progress`). -/
def postExtend (s : ProgressRecord) : ProgressRecord × List AwardInfo :=
  let ca := check_and_award_milestones s
  (if ca.2 = [] then ca.1
   else { ca.1 with
     milestones_achieved := ca.1.milestones_achieved ++ ca.2.map MilestoneItem.award },
   ca.2)

/-- `update_progress` of main.py, on an already-loaded record: the core
update followed by milestone awarding and the `extend` of the returned
award dicts onto `milestones_achieved`. -/
def update_progress (rec : ProgressRecord) (category persona_id : String)
    (score : Rat) (response_time_seconds : Int) (today : Int) (now_ts : Int) :
    ProgressRecord × List AwardInfo :=
  postExtend (updateCore rec category persona_id score response_time_seconds today now_ts)

/-- `get_practice_heatmap`: occurrence counts per date over the stored
`practice_dates` list, keys in order of first occurrence. -/
def get_practice_heatmap (r : ProgressRecord) : List (Int × Nat) :=
  (keysInOrder r.practice_dates).map fun d => (d, r.practice_dates.count d)

/-- Records reachable from the freshly-created record by `update_progress`. -/
inductive Reachable : ProgressRecord → Prop where
  | init : Reachable initial_record
  | step (r : ProgressRecord) (category persona_id : String) (score : Rat)
      (rts today now_ts : Int) : Reachable r →
      Reachable (update_progress r category persona_id score rts today now_ts).1

/-! ## Spec-side streak definitions (from the spec's wording, for C4) -/

/-- Decomposition of a date list into maximal runs of consecutive dates
(successor gaps of exactly 1 day). -/
def splitRuns : List Int → List (List Int)
  | [] => []
  | a :: rest =>
    match splitRuns rest with
    | [] => [[a]]
    | [] :: runs => [a] :: [] :: runs
    | (b :: bs) :: runs =>
      if b - a = 1 then (a :: b :: bs) :: runs
      else [a] :: (b :: bs) :: runs

def runLengths (l : List Int) : List Nat :=
  (splitRuns l).map List.length

/-- Spec: the maximum run length of consecutive calendar dates. -/
def longestRunLength (l : List Int) : Nat :=
  (runLengths l).foldl max 0

/-- Spec: the length of the trailing run ending at the most recent date. -/
def trailingRunLength (l : List Int) : Nat :=
  (runLengths l).getLastD 0

/-- The fields of the stats dict that milestone awarding never writes
(everything except `milestones_achieved`, `experience_points`, `level`). -/
def StableEq (s t : ProgressRecord) : Prop :=
  s.total_sessions = t.total_sessions ∧
  s.category_stats = t.category_stats ∧
  s.persona_stats = t.persona_stats ∧
  s.average_score = t.average_score ∧
  s.scores_history = t.scores_history ∧
  s.score_timestamps = t.score_timestamps ∧
  s.total_practice_time_minutes = t.total_practice_time_minutes ∧
  s.current_streak_days = t.current_streak_days ∧
  s.longest_streak_days = t.longest_streak_days ∧
  s.last_practice_date = t.last_practice_date ∧
  s.practice_dates = t.practice_dates ∧
  s.daily_goal = t.daily_goal ∧
  s.weekly_goal = t.weekly_goal

/-! ## Theorems -/

/-- C6 counterexample: at `current = 0, target = 0` the code returns
`achieved = (0 >= 0) = True`, so the claimed pair
(`progress_percent = 0`, `achieved = False`) is false. -/
theorem c6_counterexample :
    ¬ ((calculate_goal_progress 0 0).progress_percent = 0 ∧
       (calculate_goal_progress 0 0).achieved = false) := by
  decide

/-- C6 (amended): `calculate_goal_progress 0 0` returns
`progress_percent = 0` (the `target > 0` guard skips the division, so no
division by zero) and `achieved = True`, since `achieved = current >= target`
and `0 >= 0` holds. -/
theorem c6_goal_progress_zero_target :
    (calculate_goal_progress 0 0).progress_percent = 0 ∧
    (calculate_goal_progress 0 0).achieved = true := by
  decide

/-- C7 counterexample: `xp = 1001` is at or above the top of the ladder
(`is_max_level = true`), yet `xp_remaining = 1000 - 1001 = -1 ≠ 0`. -/
theorem c7_counterexample :
    (1000 : Int) ≤ 1001 ∧
    (xp_progress_to_next_level 1001).is_max_level = true ∧
    (xp_progress_to_next_level 1001).xp_remaining ≠ 0 := by
  decide

/-- C7 (amended): for every `xp ≥ 1000`, `xp_progress_to_next_level`
returns `is_max_level = true` and `next_level = current_level`, but
`xp_remaining = 1000 - xp` (zero exactly at `xp = 1000` and negative
above it, because the code never clamps `next_level_xp - current_xp`). -/
theorem c7_top_of_ladder (xp : Int) (h : 1000 ≤ xp) :
    (xp_progress_to_next_level xp).is_max_level = true ∧
    (xp_progress_to_next_level xp).next_level =
      (xp_progress_to_next_level xp).current_level ∧
    (xp_progress_to_next_level xp).xp_remaining = 1000 - xp := by
  have h1 : ¬ xp < 100 := by omega
  have h2 : ¬ xp < 300 := by omega
  have h3 : ¬ xp < 600 := by omega
  have h4 : ¬ xp < 1000 := by omega
  have h5 : xp ≥ 1000 := h
  simp [xp_progress_to_next_level, calculate_level, xp_for_next_level,
    levelLoop, xpNextLoop, XP_THRESHOLDS, h1, h2, h3, h4, h5]

theorem c7_top_of_ladder_witness :
    (1000 : Int) ≤ 1200 ∧
    (xp_progress_to_next_level 1200).xp_remaining = 1000 - 1200 :=
  ⟨by decide, (c7_top_of_ladder 1200 (by decide)).2.2⟩

/-- C2 (code bug evidence): after a single `update_progress` call on the
fresh record (score 100), `milestones_achieved` holds the two id strings
appended by `check_and_award_milestones` *and* the two full award dicts
appended by the `extend` in `update_progress`, so the list does not
contain only milestone identifiers.  Experience points were still added
exactly once per milestone (50 + 200 = 250). -/
theorem c2_award_dicts_in_milestones_list :
    ((update_progress initial_record "Cost and Value" "p1" 100 90 5 5).1).milestones_achieved =
      [MilestoneItem.ident "first_session", MilestoneItem.ident "perfect_score",
       MilestoneItem.award
         { id := "first_session", name := "First Steps",
           description := "Complete your first practice session", xp := 50, icon := "T" },
       MilestoneItem.award
         { id := "perfect_score", name := "Perfect Response",
           description := "Score 95+ on any question", xp := 200, icon := "H" }] ∧
    ((update_progress initial_record "Cost and Value" "p1" 100 90 5 5).1).experience_points = 250 := by
  simp +decide [update_progress, postExtend, updateCore, updStats, check_and_award_milestones,
    MILESTONES, awardStep, containsId, initial_record, calculate_streak, parseAll, dedupSort,
    keysInOrder, List.insertionSort, List.orderedInsert, streakFold, calculate_level, levelLoop,
    XP_THRESHOLDS]

theorem stableEq_refl (s : ProgressRecord) : StableEq s s :=
  ⟨rfl, rfl, rfl, rfl, rfl, rfl, rfl, rfl, rfl, rfl, rfl, rfl, rfl⟩

theorem stableEq_trans {s t u : ProgressRecord} (h1 : StableEq s t)
    (h2 : StableEq t u) : StableEq s u := by
  obtain ⟨a1, a2, a3, a4, a5, a6, a7, a8, a9, a10, a11, a12, a13⟩ := h1
  obtain ⟨b1, b2, b3, b4, b5, b6, b7, b8, b9, b10, b11, b12, b13⟩ := h2
  exact ⟨a1.trans b1, a2.trans b2, a3.trans b3, a4.trans b4, a5.trans b5,
    a6.trans b6, a7.trans b7, a8.trans b8, a9.trans b9, a10.trans b10,
    a11.trans b11, a12.trans b12, a13.trans b13⟩

/-- One milestone-awarding step only writes `milestones_achieved` and
`experience_points`. -/
theorem awardStep_stable (acc : ProgressRecord × List AwardInfo)
    (m : String × MilestoneDef) : StableEq (awardStep acc m).1 acc.1 := by
  unfold awardStep
  split
  · exact stableEq_refl _
  · split
    · exact ⟨rfl, rfl, rfl, rfl, rfl, rfl, rfl, rfl, rfl, rfl, rfl, rfl, rfl⟩
    · exact stableEq_refl _

theorem foldl_awardStep_stable (l : List (String × MilestoneDef))
    (acc : ProgressRecord × List AwardInfo) :
    StableEq (l.foldl awardStep acc).1 acc.1 := by
  induction l generalizing acc with
  | nil => exact stableEq_refl _
  | cons m l ih =>
    rw [List.foldl_cons]
    exact stableEq_trans (ih (awardStep acc m)) (awardStep_stable acc m)

/-- Recomputing `level` at the end of `check_and_award_milestones` keeps
the stable fields. -/
theorem setLevel_stable (x : ProgressRecord × List AwardInfo) (s : ProgressRecord)
    (h : StableEq x.1 s) :
    StableEq { x.1 with level := calculate_level x.1.experience_points } s := by
  obtain ⟨a1, a2, a3, a4, a5, a6, a7, a8, a9, a10, a11, a12, a13⟩ := h
  exact ⟨a1, a2, a3, a4, a5, a6, a7, a8, a9, a10, a11, a12, a13⟩

theorem check_and_award_stable (s : ProgressRecord) :
    StableEq (check_and_award_milestones s).1 s := by
  simp only [check_and_award_milestones]
  exact setLevel_stable (MILESTONES.foldl awardStep (s, [])) s
    (foldl_awardStep_stable MILESTONES (s, []))

/-- Overwriting `milestones_achieved` leaves the other fields unchanged. -/
theorem extendItem_fields (X : ProgressRecord) (ms : List MilestoneItem) :
    ({ X with milestones_achieved := ms }).total_sessions = X.total_sessions ∧
    ({ X with milestones_achieved := ms }).scores_history = X.scores_history ∧
    ({ X with milestones_achieved := ms }).score_timestamps = X.score_timestamps ∧
    ({ X with milestones_achieved := ms }).practice_dates = X.practice_dates ∧
    ({ X with milestones_achieved := ms }).longest_streak_days = X.longest_streak_days :=
  ⟨rfl, rfl, rfl, rfl, rfl⟩

/-- The tail of `update_progress` (milestone awarding followed by the
`extend` of the award dicts) leaves the counters and sequences unchanged. -/
theorem postExtend_fields (s : ProgressRecord) :
    (postExtend s).1.total_sessions = s.total_sessions ∧
    (postExtend s).1.scores_history = s.scores_history ∧
    (postExtend s).1.score_timestamps = s.score_timestamps ∧
    (postExtend s).1.practice_dates = s.practice_dates ∧
    (postExtend s).1.longest_streak_days = s.longest_streak_days := by
  obtain ⟨a1, a2, a3, a4, a5, a6, a7, a8, a9, a10, a11, a12, a13⟩ :=
    check_and_award_stable s
  obtain ⟨e1, e2, e3, e4, e5⟩ :=
    extendItem_fields (check_and_award_milestones s).1
      ((check_and_award_milestones s).1.milestones_achieved ++
        ((check_and_award_milestones s).2).map MilestoneItem.award)
  simp only [postExtend]
  split
  · exact ⟨a1, a5, a6, a11, a9⟩
  · exact ⟨e1.trans a1, e2.trans a5, e3.trans a6, e4.trans a11, e5.trans a9⟩

/-- Field bookkeeping of the core update (steps 1-5 of `update_progress`). -/
theorem updateCore_fields (rec : ProgressRecord) (category persona_id : String)
    (score : Rat) (rts today now_ts : Int) :
    (updateCore rec category persona_id score rts today now_ts).total_sessions
        = rec.total_sessions + 1 ∧
    (updateCore rec category persona_id score rts today now_ts).scores_history
        = rec.scores_history ++ [score] ∧
    (updateCore rec category persona_id score rts today now_ts).score_timestamps
        = rec.score_timestamps ++ [now_ts] ∧
    (updateCore rec category persona_id score rts today now_ts).practice_dates
        = (if rec.practice_dates.contains today then rec.practice_dates
           else rec.practice_dates ++ [today]) ∧
    (updateCore rec category persona_id score rts today now_ts).longest_streak_days
        = max (calculate_streak
            ((if rec.practice_dates.contains today then rec.practice_dates
              else rec.practice_dates ++ [today]).map some) today).2
            rec.longest_streak_days :=
  ⟨rfl, rfl, rfl, rfl, rfl⟩

/-- The record component of `update_progress` is the tail applied to the
core update. -/
theorem update_progress_fst (rec : ProgressRecord) (category persona_id : String)
    (score : Rat) (rts today now_ts : Int) :
    (update_progress rec category persona_id score rts today now_ts).1 =
      (postExtend (updateCore rec category persona_id score rts today now_ts)).1 := rfl

/-- What one `update_progress` call does to the counters and sequences of
the record (through milestone awarding, which does not touch them). -/
theorem update_progress_fields (rec : ProgressRecord) (category persona_id : String)
    (score : Rat) (rts today now_ts : Int) :
    (update_progress rec category persona_id score rts today now_ts).1.total_sessions
        = rec.total_sessions + 1 ∧
    (update_progress rec category persona_id score rts today now_ts).1.scores_history
        = rec.scores_history ++ [score] ∧
    (update_progress rec category persona_id score rts today now_ts).1.score_timestamps
        = rec.score_timestamps ++ [now_ts] ∧
    (update_progress rec category persona_id score rts today now_ts).1.practice_dates
        = (if rec.practice_dates.contains today then rec.practice_dates
           else rec.practice_dates ++ [today]) ∧
    (update_progress rec category persona_id score rts today now_ts).1.longest_streak_days
        = max (calculate_streak
            ((if rec.practice_dates.contains today then rec.practice_dates
              else rec.practice_dates ++ [today]).map some) today).2
            rec.longest_streak_days := by
  have hu := update_progress_fst rec category persona_id score rts today now_ts
  obtain ⟨p1, p2, p3, p4, p5⟩ :=
    postExtend_fields (updateCore rec category persona_id score rts today now_ts)
  obtain ⟨c1, c2, c3, c4, c5⟩ :=
    updateCore_fields rec category persona_id score rts today now_ts
  refine ⟨?_, ?_, ?_, ?_, ?_⟩
  · rw [hu, p1, c1]
  · rw [hu, p2, c2]
  · rw [hu, p3, c3]
  · rw [hu, p4, c4]
  · rw [hu, p5, c5]

/-- C1: every record reachable from the freshly-created record by
`update_progress` calls satisfies
`len(scores_history) = len(score_timestamps) = total_sessions`: each call
appends one score, one timestamp and increments `total_sessions` by one,
and milestone awarding leaves the three untouched. -/
theorem c1_history_lengths_match_sessions (r : ProgressRecord) (h : Reachable r) :
    r.scores_history.length = r.score_timestamps.length ∧
    r.score_timestamps.length = r.total_sessions := by
  induction h with
  | init => exact ⟨rfl, rfl⟩
  | step r c p s rts today ts _ ih =>
    obtain ⟨f1, f2, f3, _, _⟩ := update_progress_fields r c p s rts today ts
    rw [f1, f2, f3]
    simp [ih.1, ih.2]

theorem c1_history_lengths_match_sessions_witness :
    initial_record.scores_history.length = initial_record.score_timestamps.length ∧
    initial_record.score_timestamps.length = initial_record.total_sessions :=
  c1_history_lengths_match_sessions initial_record Reachable.init

/-- C5: after any single `update_progress` call (hence after each call of
any sequence), the stored `longest_streak_days` equals the maximum of the
freshly recomputed `calculate_streak` longest value on the updated
practice dates and its previous stored value, so it never decreases. -/
theorem c5_longest_streak_monotone (rec : ProgressRecord)
    (category persona_id : String) (score : Rat) (rts today now_ts : Int) :
    (update_progress rec category persona_id score rts today now_ts).1.longest_streak_days
        = max (calculate_streak
            ((update_progress rec category persona_id score rts today now_ts).1.practice_dates.map some)
            today).2 rec.longest_streak_days ∧
    rec.longest_streak_days ≤
      (update_progress rec category persona_id score rts today now_ts).1.longest_streak_days := by
  obtain ⟨_, _, _, f4, f5⟩ := update_progress_fields rec category persona_id score rts today now_ts
  rw [f4, f5]
  exact ⟨rfl, le_max_right _ _⟩

/-- C8 counterexample: two interactions on the same calendar date (day 5):
the record stores two timestamps on that date, but the heatmap entry for
that date reports `count = 1` (occurrences in the deduplicated
`practice_dates` list), not the number of interactions (2). -/
theorem c8_counterexample :
    ((update_progress (update_progress initial_record "Cost and Value" "p1" 50 90 5 5).1
        "Clinical Data and Evidence" "p2" 60 90 5 5).1).score_timestamps.count 5 = 2 ∧
    get_practice_heatmap
      ((update_progress (update_progress initial_record "Cost and Value" "p1" 50 90 5 5).1
        "Clinical Data and Evidence" "p2" 60 90 5 5).1) = [(5, 1)] := by
  simp +decide [update_progress, postExtend, updateCore, updStats, check_and_award_milestones,
    MILESTONES, awardStep, containsId, initial_record, calculate_streak, parseAll, dedupSort,
    keysInOrder, List.insertionSort, List.orderedInsert, streakFold, calculate_level, levelLoop,
    XP_THRESHOLDS, get_practice_heatmap]

theorem keysInOrder_go (l acc : List Int) (h : (acc ++ l).Nodup) :
    l.foldl (fun a d => if a.contains d then a else a ++ [d]) acc = acc ++ l := by
  induction l generalizing acc with
  | nil => simp
  | cons a l ih =>
    rw [List.foldl_cons]
    have hnot : a ∉ acc := by
      rcases List.nodup_append.mp h with ⟨_, _, hdisj⟩
      exact fun hmem => hdisj hmem (List.mem_cons_self a l)
    have hc : acc.contains a = false := by
      simpa using hnot
    rw [hc]
    have h2 : ((acc ++ [a]) ++ l).Nodup := by
      rw [List.append_assoc]
      simpa using h
    calc (l.foldl (fun a d => if a.contains d then a else a ++ [d])
            (if false = true then acc else acc ++ [a]))
        = (acc ++ [a]) ++ l := by
          rw [if_neg (by simp)]
          exact ih (acc ++ [a]) h2
      _ = acc ++ a :: l := by rw [List.append_assoc]; rfl

/-- On a duplicate-free list, collecting the keys in order of first
occurrence returns the list itself. -/
theorem keysInOrder_of_nodup (l : List Int) (h : l.Nodup) :
    keysInOrder l = l := by
  have := keysInOrder_go l [] (by simpa using h)
  simpa [keysInOrder] using this

/-- `practice_dates` of any reachable record has no duplicate date:
`update_progress` only adds today's date when it is not yet present. -/
theorem reachable_practice_nodup (r : ProgressRecord) (h : Reachable r) :
    r.practice_dates.Nodup := by
  induction h with
  | init => simp [initial_record]
  | step r c p s rts today ts _ ih =>
    obtain ⟨_, _, _, f4, _⟩ := update_progress_fields r c p s rts today ts
    rw [f4]
    split
    · exact ih
    · next hc =>
        have hnot : today ∉ r.practice_dates := by simpa using hc
        exact List.nodup_append.mpr
          ⟨ih, List.nodup_singleton today, by simpa using hnot⟩

/-- C8 (amended): for every stored (reachable) record, the heatmap has one
entry per distinct practice date, and the count of each entry is the
number of occurrences of that date in the stored `practice_dates` list,
which is always 1 because dates are deduplicated at storage time; the
per-date number of interactions is not recoverable from `practice_dates`
and is not what is returned. -/
theorem c8_heatmap_one_per_stored_date (r : ProgressRecord) (h : Reachable r) :
    get_practice_heatmap r = r.practice_dates.map (fun d => (d, 1)) := by
  have hnd := reachable_practice_nodup r h
  unfold get_practice_heatmap
  rw [keysInOrder_of_nodup _ hnd]
  exact List.map_congr_left fun d hd => by
    rw [List.count_eq_one_of_mem hnd hd]

theorem c8_heatmap_one_per_stored_date_witness :
    get_practice_heatmap (update_progress initial_record "Cost and Value" "p1" 100 90 5 5).1 =
      ((update_progress initial_record "Cost and Value" "p1" 100 90 5 5).1).practice_dates.map
        (fun d => (d, 1)) :=
  c8_heatmap_one_per_stored_date _
    (Reachable.step initial_record "Cost and Value" "p1" 100 90 5 5 Reachable.init)

/-! ### Idempotence of milestone awarding (C3) -/

theorem check_and_award_unfold (s : ProgressRecord) :
    check_and_award_milestones s =
      ({ (MILESTONES.foldl awardStep (s, [])).1 with
           level := calculate_level (MILESTONES.foldl awardStep (s, [])).1.experience_points },
       (MILESTONES.foldl awardStep (s, [])).2) := rfl

/-- Every milestone predicate in the catalog reads only fields that
awarding never writes. -/
theorem milestone_checks_stable :
    ∀ m ∈ MILESTONES, ∀ s t : ProgressRecord, StableEq s t →
      m.2.check s = m.2.check t := by
  intro m hm s t hst
  obtain ⟨h1, h2, h3, h4, h5, h6, h7, h8, h9, h10, h11, h12, h13⟩ := hst
  simp only [MILESTONES, List.mem_cons, List.not_mem_nil, or_false] at hm
  rcases hm with rfl | rfl | rfl | rfl | rfl | rfl | rfl | rfl <;>
    simp only [h1, h2, h3, h4, h5, h8]

theorem containsId_append (l1 l2 : List MilestoneItem) (mid : String) :
    containsId (l1 ++ l2) mid = (containsId l1 mid || containsId l2 mid) := by
  induction l1 with
  | nil => simp [containsId]
  | cons x l1 ih => cases x <;> simp [containsId, ih, Bool.or_assoc]

theorem awardStep_eq_of_contains (acc : ProgressRecord × List AwardInfo)
    (m : String × MilestoneDef)
    (h : containsId acc.1.milestones_achieved m.1 = true) :
    awardStep acc m = acc := by
  unfold awardStep
  rw [h]
  simp

theorem awardStep_eq_of_not_check (acc : ProgressRecord × List AwardInfo)
    (m : String × MilestoneDef) (h : m.2.check acc.1 = false) :
    awardStep acc m = acc := by
  unfold awardStep
  split
  · rfl
  · rw [h]
    simp

theorem awardStep_eq_award (acc : ProgressRecord × List AwardInfo)
    (m : String × MilestoneDef)
    (hc : containsId acc.1.milestones_achieved m.1 = false)
    (hk : m.2.check acc.1 = true) :
    awardStep acc m =
      ({ acc.1 with
          milestones_achieved := acc.1.milestones_achieved ++ [MilestoneItem.ident m.1]
          experience_points := acc.1.experience_points + m.2.xp },
       acc.2 ++ [{ id := m.1, name := m.2.name, description := m.2.description,
                   xp := m.2.xp, icon := m.2.icon }]) := by
  unfold awardStep
  rw [hc, hk]
  simp

theorem awardStep_contains_mono (acc : ProgressRecord × List AwardInfo)
    (m : String × MilestoneDef) (mid : String)
    (h : containsId acc.1.milestones_achieved mid = true) :
    containsId (awardStep acc m).1.milestones_achieved mid = true := by
  unfold awardStep
  split
  · exact h
  · split
    · dsimp only
      rw [containsId_append, h]
      rfl
    · exact h

theorem foldl_contains_mono (l : List (String × MilestoneDef))
    (acc : ProgressRecord × List AwardInfo) (mid : String)
    (h : containsId acc.1.milestones_achieved mid = true) :
    containsId (l.foldl awardStep acc).1.milestones_achieved mid = true := by
  induction l generalizing acc with
  | nil => exact h
  | cons m l ih =>
    rw [List.foldl_cons]
    exact ih _ (awardStep_contains_mono acc m mid h)

/-- After running the awarding loop over a catalog of stable predicates,
every catalog entry is either recorded in `milestones_achieved` or its
predicate is false on the final state. -/
theorem foldl_awardStep_post (l : List (String × MilestoneDef))
    (hstable : ∀ m ∈ l, ∀ s t : ProgressRecord, StableEq s t →
      m.2.check s = m.2.check t)
    (acc : ProgressRecord × List AwardInfo) :
    ∀ m ∈ l, containsId (l.foldl awardStep acc).1.milestones_achieved m.1 = true ∨
      m.2.check (l.foldl awardStep acc).1 = false := by
  induction l generalizing acc with
  | nil => intro m hm; exact absurd hm (List.not_mem_nil m)
  | cons m0 l ih =>
    intro m hm
    rw [List.foldl_cons]
    rcases List.mem_cons.mp hm with rfl | hm2
    · cases hcb : containsId acc.1.milestones_achieved m.1 with
      | true =>
        exact Or.inl (foldl_contains_mono l _ m.1
          (awardStep_contains_mono acc m m.1 hcb))
      | false =>
        cases hkb : m.2.check acc.1 with
        | true =>
          refine Or.inl (foldl_contains_mono l _ m.1 ?_)
          rw [awardStep_eq_award acc m hcb hkb]
          dsimp only
          rw [containsId_append]
          simp [containsId]
        | false =>
          refine Or.inr ?_
          have hst : StableEq (l.foldl awardStep (awardStep acc m)).1 acc.1 :=
            stableEq_trans (foldl_awardStep_stable l (awardStep acc m))
              (awardStep_stable acc m)
          rw [hstable m (List.mem_cons_self m l) _ acc.1 hst]
          exact hkb
    · exact ih (fun x hx => hstable x (List.mem_cons_of_mem m0 hx))
        (awardStep acc m0) m hm2

/-- If every catalog entry is already recorded or has a false predicate,
the awarding loop is the identity. -/
theorem foldl_awardStep_skip (l : List (String × MilestoneDef))
    (acc : ProgressRecord × List AwardInfo)
    (h : ∀ m ∈ l, containsId acc.1.milestones_achieved m.1 = true ∨
      m.2.check acc.1 = false) :
    l.foldl awardStep acc = acc := by
  induction l with
  | nil => rfl
  | cons m0 l ih =>
    rw [List.foldl_cons]
    have e : awardStep acc m0 = acc := by
      rcases h m0 (List.mem_cons_self m0 l) with hc | hk
      · exact awardStep_eq_of_contains acc m0 hc
      · exact awardStep_eq_of_not_check acc m0 hk
    rw [e]
    exact ih (fun m hm => h m (List.mem_cons_of_mem m0 hm))

theorem setLevel_milestones (X : ProgressRecord) (v : Nat) :
    ({ X with level := v }).milestones_achieved = X.milestones_achieved := rfl

theorem setLevel_xp (X : ProgressRecord) (v : Nat) :
    ({ X with level := v }).experience_points = X.experience_points := rfl

theorem setLevel_twice (X : ProgressRecord) (v w : Nat) :
    ({ ({ X with level := v } : ProgressRecord) with level := w }) =
      { X with level := w } := rfl

theorem fstPair (a : ProgressRecord) (b : List AwardInfo) : (a, b).1 = a := rfl

theorem sndPair (a : ProgressRecord) (b : List AwardInfo) : (a, b).2 = b := rfl

/-- C3: running `check_and_award_milestones` a second time on the state
left by a first run returns an empty newly-achieved list and the very
same state, so `experience_points` is unchanged by the second call. -/
theorem c3_milestone_awarding_idempotent (stats : ProgressRecord) :
    check_and_award_milestones (check_and_award_milestones stats).1 =
      ((check_and_award_milestones stats).1, []) := by
  have hpost := foldl_awardStep_post MILESTONES milestone_checks_stable (stats, [])
  have hstep : StableEq
      { (MILESTONES.foldl awardStep (stats, [])).1 with
          level := calculate_level (MILESTONES.foldl awardStep (stats, [])).1.experience_points }
      (MILESTONES.foldl awardStep (stats, [])).1 :=
    setLevel_stable (MILESTONES.foldl awardStep (stats, []))
      (MILESTONES.foldl awardStep (stats, [])).1
      (stableEq_refl (MILESTONES.foldl awardStep (stats, [])).1)
  have hskip : MILESTONES.foldl awardStep
      ({ (MILESTONES.foldl awardStep (stats, [])).1 with
          level := calculate_level (MILESTONES.foldl awardStep (stats, [])).1.experience_points },
       []) =
      ({ (MILESTONES.foldl awardStep (stats, [])).1 with
          level := calculate_level (MILESTONES.foldl awardStep (stats, [])).1.experience_points },
       []) := by
    apply foldl_awardStep_skip
    intro m hm
    rw [fstPair]
    rcases hpost m hm with hc | hk
    · refine Or.inl ?_
      rw [setLevel_milestones]
      exact hc
    · exact Or.inr ((milestone_checks_stable m hm _ _ hstep).trans hk)
  rw [check_and_award_unfold stats, fstPair, check_and_award_unfold, hskip,
    fstPair, sndPair, setLevel_xp, setLevel_twice]

/-! ### Streak calculator (C4, C9, C10) -/

theorem parseAll_of_mem_none (ds : List (Option Int)) (h : none ∈ ds) :
    parseAll ds = none := by
  induction ds with
  | nil => cases h
  | cons x ds ih =>
    cases x with
    | none => rfl
    | some d =>
      rcases List.mem_cons.mp h with h0 | h1
      · cases h0
      · simp [parseAll, ih h1]

theorem parseAll_of_all_some (ds : List (Option Int))
    (h : ∀ x ∈ ds, x ≠ none) :
    parseAll ds = some (ds.filterMap id) := by
  induction ds with
  | nil => rfl
  | cons x ds ih =>
    cases x with
    | none => exact absurd rfl (h none (List.mem_cons_self none ds))
    | some d =>
      have := ih (fun x hx => h x (List.mem_cons_of_mem _ hx))
      simp [parseAll, this]

/-- C9: a non-empty date list containing an unparseable entry makes
`calculate_streak` return `(0, 0)` (the whole parse comprehension is
aborted by the first failure and the exception handler returns `0, 0`). -/
theorem c9_unparseable_dates_soft_fail (practice_dates : List (Option Int))
    (today : Int) (h1 : practice_dates ≠ []) (h2 : none ∈ practice_dates) :
    calculate_streak practice_dates today = (0, 0) := by
  unfold calculate_streak
  rw [if_neg h1, parseAll_of_mem_none practice_dates h2]

theorem c9_unparseable_dates_soft_fail_witness :
    ([some 1, none] : List (Option Int)) ≠ [] ∧
    none ∈ ([some 1, none] : List (Option Int)) ∧
    calculate_streak [some 1, none] 2 = (0, 0) :=
  ⟨by decide, by decide,
   c9_unparseable_dates_soft_fail [some 1, none] 2 (by decide) (by decide)⟩

/-- Loop invariant of the streak loop: the running current-run counter
never exceeds the running longest counter, and the longest counter never
decreases. -/
theorem streakFold_le (rest : List Int) (prev : Int) (temp longest : Nat)
    (h1 : 1 ≤ temp) (h2 : temp ≤ longest) :
    (streakFold prev rest temp longest).1 ≤ (streakFold prev rest temp longest).2 ∧
    longest ≤ (streakFold prev rest temp longest).2 := by
  induction rest generalizing prev temp longest with
  | nil => exact ⟨h2, le_refl longest⟩
  | cons d rest ih =>
    unfold streakFold
    split
    · have h := ih d (temp + 1) (max longest (temp + 1))
        (by omega) (le_max_right _ _)
      exact ⟨h.1, le_trans (le_max_left _ _) h.2⟩
    · exact ih d 1 longest (le_refl 1) (by omega)

/-- C10: for every input list (parseable or not) and every current day,
`calculate_streak` returns a pair with `0 ≤ current ≤ longest`. -/
theorem c10_current_within_longest (practice_dates : List (Option Int))
    (today : Int) :
    0 ≤ (calculate_streak practice_dates today).1 ∧
    (calculate_streak practice_dates today).1 ≤
      (calculate_streak practice_dates today).2 := by
  refine ⟨Nat.zero_le _, ?_⟩
  unfold calculate_streak
  split
  · exact le_refl 0
  · split
    · exact le_refl 0
    · split
      · exact le_refl 0
      · next d0 rest heq =>
          obtain ⟨hle, _⟩ := streakFold_le rest d0 1 1 (le_refl 1) (le_refl 1)
          dsimp only
          split
          · exact hle
          · split
            · exact hle
            · exact Nat.zero_le _

theorem le_foldl_max (l : List Nat) (a : Nat) : a ≤ l.foldl max a := by
  induction l generalizing a with
  | nil => exact le_refl a
  | cons c l ih => exact le_trans (le_max_left a c) (ih (max a c))

theorem foldl_max_init (l : List Nat) (a : Nat) :
    l.foldl max a = max a (l.foldl max 0) := by
  induction l generalizing a with
  | nil => simp
  | cons c l ih =>
    rw [List.foldl_cons, ih (max a c), List.foldl_cons, ih (max 0 c)]
    omega

/-- One unfolding of `splitRuns` on a two-element head. -/
theorem splitRuns_cons_cons (a b : Int) (l : List Int) :
    splitRuns (a :: b :: l) =
      match splitRuns (b :: l) with
      | [] => [[a]]
      | [] :: runs => [a] :: [] :: runs
      | (c :: cs) :: runs =>
        if c - a = 1 then (a :: c :: cs) :: runs else [a] :: (c :: cs) :: runs := rfl

/-- The first maximal run of `a :: l` starts with `a`. -/
theorem splitRuns_cons (a : Int) (l : List Int) :
    ∃ bs runs, splitRuns (a :: l) = (a :: bs) :: runs := by
  induction l generalizing a with
  | nil => exact ⟨[], [], rfl⟩
  | cons b l ih =>
    obtain ⟨bs, runs, h⟩ := ih b
    by_cases hd : b - a = 1
    · exact ⟨b :: bs, runs, by rw [splitRuns_cons_cons, h]; simp [hd]⟩
    · exact ⟨[], (b :: bs) :: runs, by rw [splitRuns_cons_cons, h]; simp [hd]⟩

/-- The streak loop refines the run decomposition of the spec: starting
from counters `temp ≤ longest` with the current run already `temp` days
long up to `prev`, the loop returns the length of the trailing run and
the running maximum of `longest` and all run lengths, where the first run
of `prev :: rest` is extended by the `temp - 1` days already counted. -/
theorem streakFold_spec (rest : List Int) (prev : Int) (temp longest h : Nat)
    (t : List Nat) (h1 : 1 ≤ temp) (h2 : temp ≤ longest)
    (hrl : runLengths (prev :: rest) = h :: t) :
    streakFold prev rest temp longest =
      (((temp - 1 + h) :: t).getLastD 0,
       max longest (((temp - 1 + h) :: t).foldl max 0)) := by
  induction rest generalizing prev temp longest h t with
  | nil =>
    have he : runLengths [prev] = [1] := rfl
    rw [he] at hrl
    injection hrl with e1 e2
    subst e1
    subst e2
    have ht : temp - 1 + 1 = temp := by omega
    unfold streakFold
    rw [ht]
    have hg : ((temp :: []) : List Nat).getLastD 0 = temp := rfl
    have hf : ((temp :: []) : List Nat).foldl max 0 = max 0 temp := rfl
    rw [hg, hf]
    have : max longest (max 0 temp) = longest := by omega
    rw [this]
  | cons b bs ih =>
    obtain ⟨bs', runs', hsp⟩ := splitRuns_cons b bs
    have hrb : runLengths (b :: bs) = (bs'.length + 1) :: runs'.map List.length := by
      rw [runLengths, hsp]
      simp
    unfold streakFold
    by_cases hd : b - prev = 1
    · rw [if_pos hd]
      have hra : runLengths (prev :: b :: bs)
          = (bs'.length + 2) :: runs'.map List.length := by
        rw [runLengths, splitRuns_cons_cons, hsp]
        simp [hd]
      rw [hra] at hrl
      injection hrl with e1 e2
      subst e1
      subst e2
      rw [ih b (temp + 1) (max longest (temp + 1)) (bs'.length + 1)
        (runs'.map List.length) (by omega) (le_max_right _ _) hrb]
      have ee : temp + 1 - 1 + (bs'.length + 1) = temp - 1 + (bs'.length + 2) := by
        omega
      rw [ee]
      have hM : temp + 1 ≤
          ((temp - 1 + (bs'.length + 2)) :: runs'.map List.length).foldl max 0 := by
        rw [List.foldl_cons]
        exact le_trans (by omega) (le_foldl_max (runs'.map List.length) _)
      have h2' : max (max longest (temp + 1))
          (((temp - 1 + (bs'.length + 2)) :: runs'.map List.length).foldl max 0) =
          max longest
          (((temp - 1 + (bs'.length + 2)) :: runs'.map List.length).foldl max 0) := by
        omega
      rw [h2']
    · rw [if_neg hd]
      have hra : runLengths (prev :: b :: bs)
          = 1 :: (bs'.length + 1) :: runs'.map List.length := by
        rw [runLengths, splitRuns_cons_cons, hsp]
        simp [hd]
      rw [hra] at hrl
      injection hrl with e1 e2
      subst e1
      subst e2
      rw [ih b 1 longest (bs'.length + 1) (runs'.map List.length) (le_refl 1)
        (by omega) hrb]
      have ez : (1 : Nat) - 1 + (bs'.length + 1) = bs'.length + 1 := by omega
      have et : temp - 1 + 1 = temp := by omega
      rw [ez, et]
      have hg0 : ∀ (l2 : List Nat) (x y : Nat),
          ((y :: l2) : List Nat).getLastD x = (y :: l2).getLastD 0 := by
        intro l2 x y
        rw [List.getLastD_cons, List.getLastD_cons]
      have hg : ((temp :: (bs'.length + 1) :: runs'.map List.length) :
          List Nat).getLastD 0 =
          (((bs'.length + 1) :: runs'.map List.length) : List Nat).getLastD 0 := by
        rw [List.getLastD_cons]
        exact hg0 _ _ _
      rw [hg]
      have hf : ((temp :: (bs'.length + 1) :: runs'.map List.length) :
          List Nat).foldl max 0 =
          max temp (((bs'.length + 1) :: runs'.map List.length).foldl max 0) := by
        rw [List.foldl_cons, foldl_max_init]
        omega
      rw [hf]
      have : max longest
          (max temp (((bs'.length + 1) :: runs'.map List.length).foldl max 0)) =
          max longest (((bs'.length + 1) :: runs'.map List.length).foldl max 0) := by
        omega
      rw [this]

theorem foldl_keys_length (l : List Int) (acc : List Int) :
    acc.length ≤
      (l.foldl (fun a d => if a.contains d then a else a ++ [d]) acc).length := by
  induction l generalizing acc with
  | nil => exact le_refl _
  | cons x l ih =>
    rw [List.foldl_cons]
    refine le_trans ?_ (ih _)
    split
    · exact le_refl _
    · simp

theorem dedupSort_ne_nil (l : List Int) (h : l ≠ []) : dedupSort l ≠ [] := by
  cases l with
  | nil => exact absurd rfl h
  | cons x t =>
    intro hc
    have hperm := List.perm_insertionSort (· ≤ ·) (keysInOrder (x :: t))
    rw [dedupSort] at hc
    rw [hc] at hperm
    have hk : keysInOrder (x :: t) = [] := hperm.symm.eq_nil
    have hstep : keysInOrder (x :: t) =
        t.foldl (fun a d => if a.contains d then a else a ++ [d]) [x] := by
      simp [keysInOrder]
    have hlen : 1 ≤ (keysInOrder (x :: t)).length := by
      rw [hstep]
      exact foldl_keys_length t [x]
    rw [hk] at hlen
    simp at hlen

theorem runLengths_cons (a : Int) (l : List Int) :
    ∃ h t, runLengths (a :: l) = h :: t ∧ 1 ≤ h := by
  obtain ⟨bs, runs, hs⟩ := splitRuns_cons a l
  refine ⟨bs.length + 1, runs.map List.length, ?_, by omega⟩
  rw [runLengths, hs]
  simp

/-- C4: on a non-empty list of parseable date strings, `calculate_streak`
returns exactly the spec's pair: `longest` is the maximum run length of
consecutive calendar dates of the de-duplicated ascending date list, and
`current` is the length of the trailing run ending at the most recent
date when that date is today or yesterday, and `0` otherwise. -/
theorem c4_streak_functional_spec (practice_dates : List (Option Int))
    (today : Int) (h1 : practice_dates ≠ [])
    (h2 : ∀ x ∈ practice_dates, x ≠ none) :
    calculate_streak practice_dates today =
      ((if today - (dedupSort (practice_dates.filterMap id)).getLastD 0 = 0 ∨
           today - (dedupSort (practice_dates.filterMap id)).getLastD 0 = 1 then
          trailingRunLength (dedupSort (practice_dates.filterMap id))
        else 0),
       longestRunLength (dedupSort (practice_dates.filterMap id))) := by
  have hne : dedupSort (practice_dates.filterMap id) ≠ [] := by
    apply dedupSort_ne_nil
    cases practice_dates with
    | nil => exact absurd rfl h1
    | cons x t =>
      cases x with
      | none => exact absurd rfl (h2 none (List.mem_cons_self _ _))
      | some d => simp
  unfold calculate_streak
  rw [if_neg h1, parseAll_of_all_some practice_dates h2]
  dsimp only
  cases hd : dedupSort (practice_dates.filterMap id) with
  | nil => exact absurd hd hne
  | cons d0 rest =>
    dsimp only
    obtain ⟨h, t, hrl, hh⟩ := runLengths_cons d0 rest
    rw [streakFold_spec rest d0 1 1 h t (le_refl 1) (le_refl 1) hrl]
    have e1 : (1 : Nat) - 1 + h = h := by omega
    rw [e1]
    rw [trailingRunLength, longestRunLength, hrl]
    have hfm : h ≤ ((h :: t) : List Nat).foldl max 0 := by
      rw [List.foldl_cons]
      exact le_trans (by omega) (le_foldl_max t _)
    have e2 : max 1 (((h :: t) : List Nat).foldl max 0) =
        ((h :: t) : List Nat).foldl max 0 := by omega
    rw [e2, List.getLastD_cons]
    have comb : ∀ (c1 c2 : Prop) (i1 : Decidable c1) (i2 : Decidable c2) (x : Nat),
        (if c1 then x else if c2 then x else 0) = (if c1 ∨ c2 then x else 0) := by
      intro c1 c2 i1 i2 x
      split_ifs <;> first | rfl | tauto
    rw [comb]
    dsimp only
    rw [List.getLastD_cons]

theorem c4_streak_functional_spec_witness :
    (([some 1, some 2, some 4, some 5, some 6] : List (Option Int)) ≠ []) ∧
    (∀ x ∈ ([some 1, some 2, some 4, some 5, some 6] : List (Option Int)),
      x ≠ none) ∧
    calculate_streak [some 1, some 2, some 4, some 5, some 6] 6 =
      ((if (6 : Int) - (dedupSort
            (([some 1, some 2, some 4, some 5, some 6] :
              List (Option Int)).filterMap id)).getLastD 0 = 0 ∨
           (6 : Int) - (dedupSort
            (([some 1, some 2, some 4, some 5, some 6] :
              List (Option Int)).filterMap id)).getLastD 0 = 1 then
          trailingRunLength (dedupSort
            (([some 1, some 2, some 4, some 5, some 6] :
              List (Option Int)).filterMap id))
        else 0),
       longestRunLength (dedupSort
         (([some 1, some 2, some 4, some 5, some 6] :
           List (Option Int)).filterMap id))) :=
  ⟨by decide, by decide,
   c4_streak_functional_spec [some 1, some 2, some 4, some 5, some 6] 6
     (by decide) (by decide)⟩

end DNATE
